import Mathlib

/-!
Verification development for the `ik` forward-protocol engine:
a shallow embedding of the entry codec, value normalizer, connection
decode path (`src/plugins/in_forward.go`) and the load generator
(`src/entrypoints/ikb/main.go`), with theorems checking the
natural-language specification against the code.
-/

namespace Ik

/--
Decoded MessagePack object values, as produced by the `ugorji/go/codec`
MsgpackHandle configured in `newForwardInput` (`MapType =
map[string]interface{}`, `RawToString = false`): with `RawToString =
false`, raw byte strings decode to Go `[]byte` (`vbytes`); text produced
by the program's own `string(...)` conversions is `vstr`; unsigned
integers decode to `uint64` (`vuint`), signed to `int64` (`vint`),
floats to `float64` (`vfloat`, modelled as a rational, which carries
every finite float64 value exactly), arrays to `[]interface{}` (`varr`)
and maps to `map[string]interface{}` (`vmap`, modelled as an association
list). `vnull` is Go `nil`.
-/
inductive Value where
  | vnull : Value
  | vstr (s : List Nat) : Value
  | vbytes (b : List Nat) : Value
  | vuint (n : Nat) : Value
  | vint (i : Int) : Value
  | vfloat (q : Rat) : Value
  | vbool (b : Bool) : Value
  | varr (xs : List Value) : Value
  | vmap (m : List (String × Value)) : Value
deriving Repr

mutual

/--
The `switch` body of `coerceInPlace` applied to one map value:
`[]byte` values are replaced by their `string` conversion (same byte
content), nested `map[string]interface{}` values are coerced
recursively, every other value (including `[]interface{}` sequences)
passes through unchanged.
-/
def coerceValue : Value → Value
  | .vbytes b => .vstr b
  | .vmap m => .vmap (coerceInPlace m)
  | v => v

/--
Function `coerceInPlace` from `src/plugins/in_forward.go`: rewrites each
key/value pair of a `map[string]interface{}` in place via the switch
modelled by `coerceValue`.
-/
def coerceInPlace : List (String × Value) → List (String × Value)
  | [] => []
  | (k, v) :: rest => (k, coerceValue v) :: coerceInPlace rest

end

/--
Outcome of running a piece of Go code that returns `(T, error)`:
`ok` is a `nil` error, `fail msg` is a returned non-nil `error` value
(recoverable by the caller), and `crash msg` is a Go runtime panic
(unchecked type assertion or out-of-range index), which is not a
returned error value and is not recoverable by `handle()`.
-/
inductive Outcome (α : Type) where
  | ok (val : α) : Outcome α
  | fail (msg : String) : Outcome α
  | crash (msg : String) : Outcome α
deriving Repr

/-- Structure `ik.FluentRecord` as populated by `in_forward.go`: `Tag` is
`string(tag)` (byte content preserved), `Timestamp` a `uint64`,
`Data` the decoded `map[string]interface{}`. -/
structure FluentRecord where
  Tag : List Nat
  Timestamp : Nat
  Data : List (String × Value)
deriving Repr

/--
Function `decodeTinyEntries(tag, entries)` from `src/plugins/in_forward.go`.
Per element, in source order: `entry := _entry.([]interface{})` is an
UNCHECKED type assertion — a non-array element panics (`crash`);
`entry[0]` panics when the array is empty; `entry[0].(uint64)` failing
returns the error `"Failed to decode timestamp field"`; `entry[1]`
panics when the array has exactly one element;
`entry[1].(map[string]interface{})` failing returns the error
`"Failed to decode data field"`; on success the data map is coerced in
place and the record appended. Elements beyond index 1 are ignored.
-/
def decodeTinyEntries (tag : List Nat) : List Value → Outcome (List FluentRecord)
  | [] => .ok []
  | e :: rest =>
    match e with
    | .varr entry =>
      match entry.get? 0 with
      | none => .crash "runtime error: index out of range"
      | some e0 =>
        match e0 with
        | .vuint timestamp =>
          match entry.get? 1 with
          | none => .crash "runtime error: index out of range"
          | some e1 =>
            match e1 with
            | .vmap data =>
              match decodeTinyEntries tag rest with
              | .ok retval => .ok (⟨tag, timestamp, coerceInPlace data⟩ :: retval)
              | .fail msg => .fail msg
              | .crash msg => .crash msg
            | _ => .fail "Failed to decode data field"
        | _ => .fail "Failed to decode timestamp field"
    | _ => .crash "interface conversion: interface {} is not []interface {}"

/--
Go's conversion `uint64(f)` for `f : float64`, modelled on rationals
(every finite float64 is an exact rational): truncation toward zero,
reduced modulo 2^64. For values outside `[0, 2^64)` the Go conversion
is implementation-defined; only in-range values appear in the theorems
below.
-/
def goTruncUint64 (q : Rat) : Nat := (q.num.tdiv (q.den : Int)).toNat % 2 ^ 64

/--
Method `(c *forwardClient) decodeEntries()` from `src/plugins/in_forward.go`,
after the initial `c.dec.Decode(&v)` succeeded: `v0, v1, v2` are the
three slots of `v` and `innerDecode` stands for
`codec.NewDecoderBytes(..., c.codec).Decode(&entries)`, the external
`ugorji/go/codec` MessagePack decoder applied to the packed payload
(third-party library, not part of this repository; passed as a
parameter). The `uint64` branch coerces the data map in place; the
`float64` branch does NOT (faithful to the source, which omits the
`coerceInPlace(data)` call there); the `[]interface{}` branch is
Forward, the `[]byte` branch is PackedForward, both delegating to
`decodeTinyEntries`.
-/
def decodeEntries (innerDecode : List Nat → Outcome (List Value))
    (v0 v1 v2 : Value) : Outcome (List FluentRecord) :=
  match v0 with
  | .vbytes tag =>
    match v1 with
    | .vuint timestamp =>
      match v2 with
      | .vmap data => .ok [⟨tag, timestamp, coerceInPlace data⟩]
      | _ => .fail "Failed to decode data field"
    | .vfloat f =>
      match v2 with
      | .vmap data => .ok [⟨tag, goTruncUint64 f, data⟩]
      | _ => .fail "Failed to decode data field"
    | .varr entries => decodeTinyEntries tag entries
    | .vbytes packed =>
      match innerDecode packed with
      | .ok entries => decodeTinyEntries tag entries
      | .fail msg => .fail msg
      | .crash msg => .crash msg
    | _ => .fail "Unknown type"
  | _ => .fail "Failed to decode tag field"

/--
Wrapper pairing `decodeEntries` with its effect on the `entries` counter:
the source executes `atomic.AddInt64(&c.input.entries, int64(len(retval)))`
on the success path only; every error path returns before the add.
The counter is an `int64`; wraparound at 2^63 is physically
unreachable and not modelled.
-/
def decodeEntriesCounted (innerDecode : List Nat → Outcome (List Value))
    (v0 v1 v2 : Value) (entries : Int) : Outcome (List FluentRecord) × Int :=
  match decodeEntries innerDecode v0 v1 v2 with
  | .ok retval => (.ok retval, entries + retval.length)
  | .fail msg => (.fail msg, entries)
  | .crash msg => (.crash msg, entries)

/-- The number of entries a frame contributes to the `entries` counter:
the length of the decoded record slice on success, `0` on any failure. -/
def frameContribution (innerDecode : List Nat → Outcome (List Value))
    (f : Value × Value × Value) : Int :=
  match decodeEntries innerDecode f.1 f.2.1 f.2.2 with
  | .ok retval => retval.length
  | .fail _ => 0
  | .crash _ => 0

/-- The `entries` counter after a sequence of `decodeEntries` calls
(the per-connection `handle()` loops; atomic adds from concurrent
connections commute, so any interleaving folds to this sum). -/
def processFrames (innerDecode : List Nat → Outcome (List Value)) :
    List (Value × Value × Value) → Int → Int
  | [], c => c
  | (v0, v1, v2) :: rest, c =>
      processFrames innerDecode rest (decodeEntriesCounted innerDecode v0 v1 v2 c).2

mutual

/-- Returns `true` iff a `[]byte` value is reachable anywhere inside a value,
descending through both maps and arrays. -/
def valueHasBytes : Value → Bool
  | .vbytes _ => true
  | .varr xs => listHasBytes xs
  | .vmap m => mapHasBytes m
  | _ => false

/-- Returns `true` iff some element of the list reaches a `[]byte` value. -/
def listHasBytes : List Value → Bool
  | [] => false
  | v :: rest => valueHasBytes v || listHasBytes rest

/-- Returns `true` iff some value of the map reaches a `[]byte` value. -/
def mapHasBytes : List (String × Value) → Bool
  | [] => false
  | (_, v) :: rest => valueHasBytes v || mapHasBytes rest

end

mutual

/-- Returns `true` iff a `[]byte` value is reachable from a value descending
through maps only (never entering arrays) — the positions
`coerceInPlace` actually visits. -/
def spineValueHasBytes : Value → Bool
  | .vbytes _ => true
  | .vmap m => spineMapHasBytes m
  | _ => false

/-- Returns `true` iff some value of the map reaches a `[]byte` value
through maps only. -/
def spineMapHasBytes : List (String × Value) → Bool
  | [] => false
  | (_, v) :: rest => spineValueHasBytes v || spineMapHasBytes rest

end

/-- Outcome of one load-generator worker goroutine
(`src/entrypoints/ikb/main.go`, the closure spawned by `Run`).
`completed`: the worker reached `sync <- id` with all its attempts
sent. `abortedSend`: a non-temporary send error broke the `outer`
loop; the worker still reaches `sync <- id`. `processExit`: the dial
retry budget went negative and the worker executed
`log.Fatal("retry count exceeded")` — `log.Fatal` calls `os.Exit(1)`
(Go standard library), which terminates the entire process; no
goroutine reaches `sync <- id` after it. -/
inductive WorkerOutcome where
  | completed : WorkerOutcome
  | abortedSend : WorkerOutcome
  | processExit : WorkerOutcome
deriving Repr, DecidableEq

/--
The inner send-retry loop of a worker for one `Send` call: the source
retries in place, without limit, while the error is a temporary
`net.Error`, and resolves as soon as the result is not temporary.
A send trace is `(temporaries, final)`: `temporaries` temporary
failures followed by success (`final = true`) or a non-temporary
error (`final = false`).
-/
def sendOnce (temporaries : Nat) (final : Bool) : Bool :=
  match temporaries with
  | 0 => final
  | t + 1 => sendOnce t final

/--
The per-connection attempt loop of a worker: `attempts` iterations of
`ikb.Send`; `sendPlan i` is the trace of attempt `i`. A send that
resolves to a non-temporary error executes `break outer`, skipping the
remaining attempts, and the worker proceeds to `sync <- id`
(`abortedSend`); otherwise all attempts complete (`completed`).
-/
def sendPhase (sendPlan : Nat → Nat × Bool) : Nat → Nat → WorkerOutcome
  | 0, _ => .completed
  | n + 1, i =>
      if sendOnce (sendPlan i).1 (sendPlan i).2 then sendPhase sendPlan n (i + 1)
      else .abortedSend

/--
The `outer` dial loop of a worker: `dialOk k` tells whether the k-th
`net.Dial` succeeds. On failure the budget `retryCount` is
decremented; once it is negative the worker executes `log.Fatal`
(`processExit`). On success the worker runs its attempts and breaks
out of `outer`.
-/
def workerDialLoop (dialOk : Nat → Bool) (sendResult : WorkerOutcome) :
    Int → Nat → WorkerOutcome
  | retryCount, k =>
    if dialOk k then sendResult
    else if retryCount - 1 < 0 then .processExit
    else workerDialLoop dialOk sendResult (retryCount - 1) (k + 1)
termination_by retryCount _ => retryCount.toNat
decreasing_by omega

/-- One whole worker goroutine: dial loop with budget `maxRetryCount`,
then `attempts` sends. -/
def workerRun (dialOk : Nat → Bool) (sendPlan : Nat → Nat × Bool)
    (maxRetryCount : Int) (attempts : Nat) : WorkerOutcome :=
  workerDialLoop dialOk (sendPhase sendPlan attempts 0) maxRetryCount 0

/-- Computation of `numberOfAttempts` in `Run`:
`NumberOfRecordsToSend / NumberOfRecordsSentAtOnce` (non-negative Go ints; `main` rejects non-divisible counts
before calling `Run`). -/
def numberOfAttempts (numberOfRecordsToSend numberOfRecordsSentAtOnce : Nat) : Nat :=
  numberOfRecordsToSend / numberOfRecordsSentAtOnce

/-- The attempt count worker `i` receives in `Run`:
`numberOfAttemptsPerProc + r` where
`numberOfAttemptsPerProc = attempts / concurrency`,
`remainder = attempts % concurrency`, and `r = 1` iff `i < remainder`. -/
def workerLoad (attempts concurrency i : Nat) : Nat :=
  attempts / concurrency + (if i < attempts % concurrency then 1 else 0)

/-- Result of `(ikb *IkBench) Run`: either every worker reached
`sync <- id` and `Run` returned after draining the channel
(`allDone`, one outcome per worker in spawn order), or some worker
executed `log.Fatal`, i.e. `os.Exit(1)`, so the whole process
terminated and `Run` never returned (`processExited`). -/
inductive RunResult where
  | allDone (outs : List WorkerOutcome) : RunResult
  | processExited : RunResult
deriving Repr, DecidableEq

/-- Method `(ikb *IkBench) Run` over per-worker environments: worker `i`
dials according to `dialOk i` and sends according to `sendPlan i`,
with `workerLoad` attempts each. -/
def ikbRun (dialOk : Nat → Nat → Bool) (sendPlan : Nat → Nat → Nat × Bool)
    (maxRetryCount : Int) (attempts concurrency : Nat) : RunResult :=
  let outs := (List.range concurrency).map fun i =>
    workerRun (dialOk i) (sendPlan i) maxRetryCount (workerLoad attempts concurrency i)
  if outs.any (· = .processExit) then .processExited else .allDone outs

/-! ## Helper lemmas -/

mutual

theorem coerceValue_idem : ∀ v, coerceValue (coerceValue v) = coerceValue v
  | .vnull => rfl
  | .vstr _ => rfl
  | .vbytes _ => rfl
  | .vuint _ => rfl
  | .vint _ => rfl
  | .vfloat _ => rfl
  | .vbool _ => rfl
  | .varr _ => rfl
  | .vmap m => by simp [coerceValue, coerceInPlace_idem m]

theorem coerceInPlace_idem : ∀ m, coerceInPlace (coerceInPlace m) = coerceInPlace m
  | [] => rfl
  | (k, v) :: rest => by
      simp [coerceInPlace, coerceValue_idem v, coerceInPlace_idem rest]

end

mutual

theorem spineValueHasBytes_coerceValue : ∀ v, spineValueHasBytes (coerceValue v) = false
  | .vnull => rfl
  | .vstr _ => rfl
  | .vbytes _ => rfl
  | .vuint _ => rfl
  | .vint _ => rfl
  | .vfloat _ => rfl
  | .vbool _ => rfl
  | .varr _ => rfl
  | .vmap m => by simp [coerceValue, spineValueHasBytes, spineMapHasBytes_coerceInPlace m]

theorem spineMapHasBytes_coerceInPlace : ∀ m, spineMapHasBytes (coerceInPlace m) = false
  | [] => rfl
  | (k, v) :: rest => by
      simp [coerceInPlace, spineMapHasBytes, spineValueHasBytes_coerceValue v,
        spineMapHasBytes_coerceInPlace rest]

end

/-! ## Claims -/

/--
C1: the claim says that a Forward-sequence element that is not a
2-element `[timestamp, data]` pair always makes `decodeEntries` fail
with a recoverable `MalformedEntry` error value, that branch being the
only outcome. The code disagrees: an element that is not a sequence at
all panics on the unchecked assertion `_entry.([]interface{})` (first
conjunct), a 1-element sequence panics on the index access `entry[1]`
(second conjunct), and a 3-element sequence whose first two fields are
well-typed is accepted rather than rejected (third conjunct).
-/
theorem claim_C1_nonpair_element_panics :
    decodeTinyEntries [116] [.vuint 42] =
      .crash "interface conversion: interface {} is not []interface {}" ∧
    decodeTinyEntries [116] [.varr [.vuint 7]] =
      .crash "runtime error: index out of range" ∧
    decodeTinyEntries [116] [.varr [.vuint 7, .vmap [], .vnull]] =
      .ok [⟨[116], 7, []⟩] :=
  ⟨rfl, rfl, rfl⟩

/--
C2 (counterexample): a byte-sequence nested inside a sequence-of-values
survives `coerceInPlace` untouched, so the claim that no byte-sequence
remains anywhere in the reachable structure is false: on
`{"k": [<bytes 104>]}` the map is returned unchanged and still reaches
a byte-sequence value.
-/
theorem claim_C2_counterexample_bytes_in_array_survive :
    coerceInPlace [("k", .varr [.vbytes [104]])] = [("k", .varr [.vbytes [104]])] ∧
    mapHasBytes (coerceInPlace [("k", .varr [.vbytes [104]])]) = true :=
  ⟨rfl, rfl⟩

/--
C2 (amended): after `coerceInPlace`, no byte-sequence value remains at
any position reachable through mappings alone (map values at every
nesting depth of maps); byte-sequences nested inside sequence values
are not visited and may remain.
-/
theorem claim_C2_no_bytes_on_map_spine (m : List (String × Value)) :
    spineMapHasBytes (coerceInPlace m) = false :=
  spineMapHasBytes_coerceInPlace m

/--
C3: the claim says a float-timestamp frame decodes to one Entry with
the truncated timestamp and a data mapping normalized exactly as in
the unsigned-integer Message case. The code truncates the timestamp
(1.5 becomes 1) but omits the `coerceInPlace(data)` call in the
`float64` branch, so the returned data still reaches a byte-sequence
(first and second conjuncts), while the identical frame with an
unsigned-integer timestamp comes back normalized (third conjunct).
-/
theorem claim_C3_float_branch_skips_normalization :
    decodeEntries (fun _ => .fail "") (.vbytes [116]) (.vfloat (3 / 2))
        (.vmap [("k", .vbytes [104, 105])]) =
      .ok [⟨[116], 1, [("k", .vbytes [104, 105])]⟩] ∧
    mapHasBytes [("k", Value.vbytes [104, 105])] = true ∧
    decodeEntries (fun _ => .fail "") (.vbytes [116]) (.vuint 1)
        (.vmap [("k", .vbytes [104, 105])]) =
      .ok [⟨[116], 1, [("k", .vstr [104, 105])]⟩] := by
  refine ⟨?_, rfl, rfl⟩
  norm_num [decodeEntries, goTruncUint64]
  decide

/--
C9: normalization is idempotent — applying `coerceInPlace` twice
yields the same mapping as applying it once.
-/
theorem claim_C9_normalize_idempotent (m : List (String × Value)) :
    coerceInPlace (coerceInPlace m) = coerceInPlace m :=
  coerceInPlace_idem m

/-- A list of well-formed `[timestamp, data]` pairs decodes to one
record per pair, in order, with the frame's tag and the coerced data. -/
theorem decodeTinyEntries_wellFormed (tag : List Nat)
    (pairs : List (Nat × List (String × Value))) :
    decodeTinyEntries tag (pairs.map fun p => .varr [.vuint p.1, .vmap p.2]) =
      .ok (pairs.map fun p => ⟨tag, p.1, coerceInPlace p.2⟩) := by
  induction pairs with
  | nil => rfl
  | cons p rest ih => simp [decodeTinyEntries, ih]

/--
C6: a Forward frame whose sequence holds `N` well-formed
`[timestamp, data]` pairs decodes to exactly `N` Entries
(`List.map` preserves length), in the order of the pairs, every Entry
carrying the frame's tag.
-/
theorem claim_C6_forward_n_pairs (innerDecode : List Nat → Outcome (List Value))
    (tag : List Nat) (pairs : List (Nat × List (String × Value))) (v2 : Value) :
    decodeEntries innerDecode (.vbytes tag)
        (.varr (pairs.map fun p => .varr [.vuint p.1, .vmap p.2])) v2 =
      .ok (pairs.map fun p => ⟨tag, p.1, coerceInPlace p.2⟩) := by
  simp [decodeEntries, decodeTinyEntries_wellFormed]

/--
C5: a PackedForward frame whose byte-sequence payload decodes (by the
connection's codec, `innerDecode`) to the same pair sequence a Forward
frame carries inline yields exactly the same Entry sequence: both
shapes delegate to `decodeTinyEntries` on the same pairs and the same
tag.
-/
theorem claim_C5_packed_equals_forward (innerDecode : List Nat → Outcome (List Value))
    (tag packed : List Nat) (pairs : List Value) (v2 v2' : Value)
    (h : innerDecode packed = .ok pairs) :
    decodeEntries innerDecode (.vbytes tag) (.vbytes packed) v2 =
      decodeEntries innerDecode (.vbytes tag) (.varr pairs) v2' := by
  simp [decodeEntries, h]

/-- Witness for C5 at a concrete packed payload decoding to one pair. -/
theorem claim_C5_witness :
    (fun _ : List Nat => Outcome.ok [Value.varr [.vuint 5, .vmap []]]) [0] =
      Outcome.ok [Value.varr [.vuint 5, .vmap []]] ∧
    decodeEntries (fun _ => .ok [.varr [.vuint 5, .vmap []]])
        (.vbytes [116]) (.vbytes [0]) .vnull =
      decodeEntries (fun _ => .ok [.varr [.vuint 5, .vmap []]])
        (.vbytes [116]) (.varr [.varr [.vuint 5, .vmap []]]) .vnull :=
  ⟨rfl, claim_C5_packed_equals_forward _ [116] [0] _ _ _ rfl⟩

/-- A frame never contributes a negative amount to the counter. -/
theorem frameContribution_nonneg (innerDecode : List Nat → Outcome (List Value))
    (f : Value × Value × Value) : 0 ≤ frameContribution innerDecode f := by
  unfold frameContribution
  cases decodeEntries innerDecode f.1 f.2.1 f.2.2 <;> simp

/-- Folding `decodeEntries` calls over frames adds each frame's
contribution to the counter. -/
theorem processFrames_eq (innerDecode : List Nat → Outcome (List Value)) :
    ∀ (fs : List (Value × Value × Value)) (c : Int),
      processFrames innerDecode fs c = c + (fs.map (frameContribution innerDecode)).sum
  | [], c => by simp [processFrames]
  | (v0, v1, v2) :: rest, c => by
      have h := processFrames_eq innerDecode rest
        (decodeEntriesCounted innerDecode v0 v1 v2 c).2
      simp only [processFrames, h, List.map_cons, List.sum_cons]
      unfold decodeEntriesCounted frameContribution
      cases decodeEntries innerDecode v0 v1 v2 <;> simp [add_assoc]

/--
C7: a successful `decodeEntries` call adds exactly the number of
returned Entries to the `entries` counter (first conjunct); a failing
call leaves it unchanged (second conjunct); after a sequence of calls
the counter holds its initial value plus the sum of the per-frame
contributions (third conjunct); and it never decreases (fourth
conjunct).
-/
theorem claim_C7_counter_sums :
    (∀ (innerDecode : List Nat → Outcome (List Value)) (v0 v1 v2 : Value) (c : Int)
        (retval : List FluentRecord),
        decodeEntries innerDecode v0 v1 v2 = .ok retval →
        (decodeEntriesCounted innerDecode v0 v1 v2 c).2 = c + retval.length) ∧
    (∀ (innerDecode : List Nat → Outcome (List Value)) (v0 v1 v2 : Value) (c : Int),
        (∀ retval, decodeEntries innerDecode v0 v1 v2 ≠ .ok retval) →
        (decodeEntriesCounted innerDecode v0 v1 v2 c).2 = c) ∧
    (∀ (innerDecode : List Nat → Outcome (List Value))
        (fs : List (Value × Value × Value)) (c : Int),
        processFrames innerDecode fs c = c + (fs.map (frameContribution innerDecode)).sum) ∧
    (∀ (innerDecode : List Nat → Outcome (List Value))
        (fs : List (Value × Value × Value)) (c : Int),
        c ≤ processFrames innerDecode fs c) := by
  refine ⟨?_, ?_, fun i fs c => processFrames_eq i fs c, ?_⟩
  · intro innerDecode v0 v1 v2 c retval h
    simp [decodeEntriesCounted, h]
  · intro innerDecode v0 v1 v2 c h
    unfold decodeEntriesCounted
    cases hd : decodeEntries innerDecode v0 v1 v2 <;> simp_all
  · intro innerDecode fs c
    rw [processFrames_eq]
    have hs : 0 ≤ (fs.map (frameContribution innerDecode)).sum := by
      apply List.sum_nonneg
      intro x hx
      obtain ⟨f, hf, rfl⟩ := List.mem_map.1 hx
      exact frameContribution_nonneg innerDecode f
    omega

/-- Witness for C7: one successful Message frame of one entry raises
the counter from 0 to 1, and one failing frame leaves it at 0. -/
theorem claim_C7_witness :
    (decodeEntriesCounted (fun _ => .fail "") (.vbytes [116]) (.vuint 1) (.vmap []) 0).2 =
      0 + (1 : Int) ∧
    (decodeEntriesCounted (fun _ => .fail "") .vnull .vnull .vnull 0).2 = 0 :=
  ⟨claim_C7_counter_sums.1 (fun _ => .fail "") (.vbytes [116]) (.vuint 1) (.vmap []) 0
      [⟨[116], 1, []⟩] rfl,
    claim_C7_counter_sums.2.1 (fun _ => .fail "") .vnull .vnull .vnull 0
      (fun retval h => by simp [decodeEntries] at h)⟩

/-- Summing `q + (1 if i < r)` over `i < n` gives `n*q + min r n`. -/
theorem sum_split_range (q r : Nat) :
    ∀ n, ((List.range n).map (fun i => q + if i < r then 1 else 0)).sum = n * q + min r n
  | 0 => by simp
  | n + 1 => by
      have ih := sum_split_range q r n
      simp [List.range_succ, ih, Nat.succ_mul]
      split <;> omega

/--
C8: with `attempts = totalRecords / recordsPerBatch`, worker `i`
receives `⌊attempts/concurrency⌋` attempts plus one extra when
`i < attempts mod concurrency`, and the per-worker loads sum to
`attempts` (first conjunct); the spec's scenario `count=100`,
`batchSize=10`, `concurrency=3` gives loads `[4, 3, 3]` (second
conjunct).
-/
theorem claim_C8_even_split :
    (∀ numberOfRecordsToSend numberOfRecordsSentAtOnce concurrency : Nat,
        0 < concurrency →
        ((List.range concurrency).map
            (workerLoad (numberOfAttempts numberOfRecordsToSend numberOfRecordsSentAtOnce)
              concurrency)).sum =
          numberOfAttempts numberOfRecordsToSend numberOfRecordsSentAtOnce) ∧
    (List.range 3).map (workerLoad (numberOfAttempts 100 10) 3) = [4, 3, 3] := by
  constructor
  · intro t b c hc
    set a := numberOfAttempts t b
    have h1 : ((List.range c).map (workerLoad a c)).sum = c * (a / c) + min (a % c) c :=
      sum_split_range (a / c) (a % c) c
    have h2 : a % c < c := Nat.mod_lt _ hc
    have h3 : c * (a / c) + a % c = a := Nat.div_add_mod a c
    omega
  · decide

/-- Witness for C8 at `count=100`, `batchSize=10`, `concurrency=3`. -/
theorem claim_C8_witness :
    0 < 3 ∧
    ((List.range 3).map (workerLoad (numberOfAttempts 100 10) 3)).sum =
      numberOfAttempts 100 10 :=
  ⟨by decide, claim_C8_even_split.1 100 10 3 (by decide)⟩

/-- A sequence element that is a Go `[]interface{}` of at least two
elements — the shape `decodeTinyEntries` indexes without panicking. -/
def IsTinyPair (e : Value) : Prop := ∃ xs, e = Value.varr xs ∧ 2 ≤ xs.length

/-- The element's first field (the pair's timestamp position) is not a
Go `uint64` — e.g. it is a `float64`. -/
def HasNonUintTimestamp (e : Value) : Prop :=
  ∃ xs e0, e = Value.varr xs ∧ xs.get? 0 = some e0 ∧ ∀ n, e0 ≠ Value.vuint n

/-- If every sequence element is pair-shaped and some element's
timestamp field is not a `uint64`, `decodeTinyEntries` returns an
error value. -/
theorem decodeTinyEntries_nonUint_fails (tag : List Nat) :
    ∀ (entries : List Value),
      (∀ e ∈ entries, IsTinyPair e) →
      (∃ e ∈ entries, HasNonUintTimestamp e) →
      ∃ msg, decodeTinyEntries tag entries = .fail msg
  | [], _, hbad => by simp at hbad
  | e :: rest, hshape, hbad => by
      obtain ⟨xs, rfl, hlen⟩ := hshape _ (List.mem_cons_self _ rest)
      cases xs with
      | nil => simp at hlen
      | cons x0 xs1 =>
        by_cases hu : ∃ n, x0 = Value.vuint n
        · obtain ⟨n, rfl⟩ := hu
          have hbad' : ∃ e ∈ rest, HasNonUintTimestamp e := by
            rcases hbad with ⟨e', he', hb⟩
            rcases List.mem_cons.1 he' with h | h
            · exfalso
              rcases hb with ⟨ys, e0, heq, hget, hne⟩
              rw [h] at heq
              cases heq
              simp at hget
              exact hne n hget.symm
            · exact ⟨e', h, hb⟩
          obtain ⟨msg, hmsg⟩ := decodeTinyEntries_nonUint_fails tag rest
            (fun e he => hshape e (List.mem_cons_of_mem _ he)) hbad'
          cases xs1 with
          | nil => simp at hlen
          | cons x1 xs2 =>
            cases x1 with
            | vmap d => exact ⟨msg, by simp [decodeTinyEntries, hmsg]⟩
            | vnull => exact ⟨"Failed to decode data field", by simp [decodeTinyEntries]⟩
            | vstr s => exact ⟨"Failed to decode data field", by simp [decodeTinyEntries]⟩
            | vbytes b => exact ⟨"Failed to decode data field", by simp [decodeTinyEntries]⟩
            | vuint m => exact ⟨"Failed to decode data field", by simp [decodeTinyEntries]⟩
            | vint i => exact ⟨"Failed to decode data field", by simp [decodeTinyEntries]⟩
            | vfloat q => exact ⟨"Failed to decode data field", by simp [decodeTinyEntries]⟩
            | vbool b => exact ⟨"Failed to decode data field", by simp [decodeTinyEntries]⟩
            | varr ys => exact ⟨"Failed to decode data field", by simp [decodeTinyEntries]⟩
        · refine ⟨"Failed to decode timestamp field", ?_⟩
          cases x0 <;>
            first
              | exact (hu ⟨_, rfl⟩).elim
              | simp [decodeTinyEntries]

/--
C10: inside Forward and PackedForward frames, a pair whose timestamp
field is not a `uint64` (for instance a `float64`) makes decoding fail
with a returned error — the float-to-unsigned truncation exists only
in the top-level Message branch of `decodeEntries`, and
`decodeTinyEntries` accepts nothing but `uint64` timestamps. Stated
for the bare pair decoder (first conjunct), for a Forward frame
(second), and for a PackedForward frame whose payload decodes to those
pairs (third); all elements are assumed pair-shaped so that the
unchecked-assertion panic paths are not taken.
-/
theorem claim_C10_pair_timestamp_not_coerced :
    (∀ (tag : List Nat) (entries : List Value),
        (∀ e ∈ entries, IsTinyPair e) →
        (∃ e ∈ entries, HasNonUintTimestamp e) →
        ∃ msg, decodeTinyEntries tag entries = .fail msg) ∧
    (∀ (innerDecode : List Nat → Outcome (List Value)) (tag : List Nat)
        (entries : List Value) (v2 : Value),
        (∀ e ∈ entries, IsTinyPair e) →
        (∃ e ∈ entries, HasNonUintTimestamp e) →
        ∃ msg, decodeEntries innerDecode (.vbytes tag) (.varr entries) v2 = .fail msg) ∧
    (∀ (innerDecode : List Nat → Outcome (List Value)) (tag packed : List Nat)
        (entries : List Value) (v2 : Value),
        innerDecode packed = .ok entries →
        (∀ e ∈ entries, IsTinyPair e) →
        (∃ e ∈ entries, HasNonUintTimestamp e) →
        ∃ msg, decodeEntries innerDecode (.vbytes tag) (.vbytes packed) v2 = .fail msg) := by
  refine ⟨decodeTinyEntries_nonUint_fails, ?_, ?_⟩
  · intro innerDecode tag entries v2 hshape hbad
    obtain ⟨msg, hmsg⟩ := decodeTinyEntries_nonUint_fails tag entries hshape hbad
    exact ⟨msg, by simp [decodeEntries, hmsg]⟩
  · intro innerDecode tag packed entries v2 hinner hshape hbad
    obtain ⟨msg, hmsg⟩ := decodeTinyEntries_nonUint_fails tag entries hshape hbad
    exact ⟨msg, by simp [decodeEntries, hinner, hmsg]⟩

/-- Witness for C10: a single pair `[1.5, {}]` fails with an error. -/
theorem claim_C10_witness :
    ∃ msg, decodeTinyEntries [116] [.varr [.vfloat (3 / 2), .vmap []]] = .fail msg :=
  claim_C10_pair_timestamp_not_coerced.1 [116] [.varr [.vfloat (3 / 2), .vmap []]]
    (by intro e he
        simp at he
        exact ⟨[.vfloat (3 / 2), .vmap []], he, by simp⟩)
    ⟨.varr [.vfloat (3 / 2), .vmap []], by simp,
      ⟨[.vfloat (3 / 2), .vmap []], .vfloat (3 / 2), rfl, rfl,
        fun n h => Value.noConfusion h⟩⟩

/-- When every dial fails, the `outer` loop ends in `log.Fatal`
regardless of the remaining budget or dial index. -/
theorem workerDialLoop_allFail (s : WorkerOutcome) (rc : Int) (k : Nat) :
    workerDialLoop (fun _ => false) s rc k = .processExit := by
  by_cases h : rc - 1 < 0
  · rw [workerDialLoop]
    simp [h]
  · rw [workerDialLoop]
    simp only [Bool.false_eq_true, if_false, h, if_neg, ite_false]
    exact workerDialLoop_allFail s (rc - 1) (k + 1)
termination_by rc.toNat
decreasing_by omega

/--
C4 (counterexample): two workers with `maxRetryCount = 1`; worker 0's
dials all fail, worker 1's all succeed. Worker 0 exhausts its budget
and executes `log.Fatal` (`processExit`, first conjunct); worker 1 in
isolation would complete its attempts (second conjunct); yet the run
ends with the whole process terminated by `os.Exit(1)` (third
conjunct) and never reports the sibling's completion (fourth
conjunct) — contradicting the claim that `RetryExhausted` is fatal to
that worker only.
-/
theorem claim_C4_counterexample_process_exits :
    workerRun (fun _ => false) (fun _ => (0, true)) 1 1 = .processExit ∧
    workerRun (fun _ => true) (fun _ => (0, true)) 1 1 = .completed ∧
    ikbRun (fun i _ => i == 1) (fun _ _ => (0, true)) 1 2 2 = .processExited ∧
    ikbRun (fun i _ => i == 1) (fun _ _ => (0, true)) 1 2 2 ≠
      .allDone [.processExit, .completed] := by
  refine ⟨?_, ?_, ?_, ?_⟩
  · simp [workerRun, workerDialLoop, sendPhase, sendOnce]
  · simp [workerRun, workerDialLoop, sendPhase, sendOnce]
  · simp [ikbRun, workerRun, workerDialLoop, sendPhase, sendOnce, workerLoad, List.range_succ]
  · simp [ikbRun, workerRun, workerDialLoop, sendPhase, sendOnce, workerLoad, List.range_succ]

/--
C4 (amended): when a worker's dial retry budget goes negative it
executes `log.Fatal`, i.e. `os.Exit(1)`: a worker all of whose dials
fail always ends in `processExit` (first conjunct), and any worker
ending in `processExit` terminates the entire process — `Run` never
returns, so sibling workers are not reported as completing their
attempts (second conjunct).
-/
theorem claim_C4_retry_exhausted_halts_process :
    (∀ (sendResult : WorkerOutcome) (maxRetryCount : Int) (k : Nat),
        workerDialLoop (fun _ => false) sendResult maxRetryCount k = .processExit) ∧
    (∀ (dialOk : Nat → Nat → Bool) (sendPlan : Nat → Nat → Nat × Bool)
        (maxRetryCount : Int) (attempts concurrency i : Nat),
        i < concurrency →
        workerRun (dialOk i) (sendPlan i) maxRetryCount
            (workerLoad attempts concurrency i) = .processExit →
        ikbRun dialOk sendPlan maxRetryCount attempts concurrency = .processExited) := by
  constructor
  · exact fun s rc k => workerDialLoop_allFail s rc k
  · intro dialOk sendPlan maxRetryCount attempts concurrency i hi hexit
    unfold ikbRun
    rw [if_pos]
    apply List.any_eq_true.2
    refine ⟨workerRun (dialOk i) (sendPlan i) maxRetryCount
      (workerLoad attempts concurrency i), ?_, by simp [hexit]⟩
    exact List.mem_map_of_mem _ (List.mem_range.2 hi)

/-- Witness for the amended C4 at the concrete two-worker environment. -/
theorem claim_C4_witness :
    0 < 2 ∧
    ikbRun (fun i _ => i == 0) (fun _ _ => (0, true)) 2 2 2 = .processExited :=
  ⟨by decide,
    claim_C4_retry_exhausted_halts_process.2 (fun i _ => i == 0) (fun _ _ => (0, true))
      2 2 2 1 (by decide)
      (by simp [workerRun, workerDialLoop, sendPhase, sendOnce, workerLoad])⟩

end Ik

